import Mathlib

set_option maxRecDepth 100000

/-!
Verification of `bigquery_ddl_deploy.py`: a shallow embedding of the hash
store (`ProjectRepoHashes`), the deploy loop (`deploy`), and the DDL file
locator (`find_ddl_files`), together with theorems settling the spec claims.

Machine integers are modelled as `Nat` reduced modulo `2 ^ 32` where the
MD5 algorithm requires 32-bit wraparound.  Timestamps
(`datetime.datetime.utcnow()`) are modelled as `Nat` values supplied
explicitly by the caller.  External effects (the Mongo collection, the
directory listing, the `bq` subprocess) are modelled as explicit inputs.
-/

/-! ### MD5 (model of Python `hashlib.md5(text.encode("utf-8")).hexdigest()`) -/

/-- Truncation to a 32-bit word. -/
def u32 (x : Nat) : Nat := x % 4294967296

/-- 32-bit left rotation. -/
def rotl32 (x c : Nat) : Nat := u32 ((x <<< c) ||| (x >>> (32 - c)))

/-- The 64 MD5 round constants `K[i] = floor(2^32 * |sin(i+1)|)`. -/
def md5K : List Nat :=
  [0xd76aa478, 0xe8c7b756, 0x242070db, 0xc1bdceee,
   0xf57c0faf, 0x4787c62a, 0xa8304613, 0xfd469501,
   0x698098d8, 0x8b44f7af, 0xffff5bb1, 0x895cd7be,
   0x6b901122, 0xfd987193, 0xa679438e, 0x49b40821,
   0xf61e2562, 0xc040b340, 0x265e5a51, 0xe9b6c7aa,
   0xd62f105d, 0x02441453, 0xd8a1e681, 0xe7d3fbc8,
   0x21e1cde6, 0xc33707d6, 0xf4d50d87, 0x455a14ed,
   0xa9e3e905, 0xfcefa3f8, 0x676f02d9, 0x8d2a4c8a,
   0xfffa3942, 0x8771f681, 0x6d9d6122, 0xfde5380c,
   0xa4beea44, 0x4bdecfa9, 0xf6bb4b60, 0xbebfbc70,
   0x289b7ec6, 0xeaa127fa, 0xd4ef3085, 0x04881d05,
   0xd9d4d039, 0xe6db99e5, 0x1fa27cf8, 0xc4ac5665,
   0xf4292244, 0x432aff97, 0xab9423a7, 0xfc93a039,
   0x655b59c3, 0x8f0ccc92, 0xffeff47d, 0x85845dd1,
   0x6fa87e4f, 0xfe2ce6e0, 0xa3014314, 0x4e0811a1,
   0xf7537e82, 0xbd3af235, 0x2ad7d2bb, 0xeb86d391]

/-- The 64 MD5 per-round left-rotation amounts. -/
def md5S : List Nat :=
  [7, 12, 17, 22, 7, 12, 17, 22, 7, 12, 17, 22, 7, 12, 17, 22,
   5, 9, 14, 20, 5, 9, 14, 20, 5, 9, 14, 20, 5, 9, 14, 20,
   4, 11, 16, 23, 4, 11, 16, 23, 4, 11, 16, 23, 4, 11, 16, 23,
   6, 10, 15, 21, 6, 10, 15, 21, 6, 10, 15, 21, 6, 10, 15, 21]

/-- One MD5 round `i` (0 ≤ i < 64) on state `(a, b, c, d)` with message
words `M`. -/
def md5Round (M : List Nat) (st : Nat × Nat × Nat × Nat) (i : Nat) :
    Nat × Nat × Nat × Nat :=
  let (a, b, c, d) := st
  let fg : Nat × Nat :=
    if i < 16 then ((b &&& c) ||| ((b ^^^ 0xffffffff) &&& d), i)
    else if i < 32 then ((d &&& b) ||| ((d ^^^ 0xffffffff) &&& c), (5 * i + 1) % 16)
    else if i < 48 then (b ^^^ c ^^^ d, (3 * i + 5) % 16)
    else (c ^^^ (b ||| (d ^^^ 0xffffffff)), (7 * i) % 16)
  let f := u32 (fg.1 + a + md5K.getD i 0 + M.getD fg.2 0)
  (d, u32 (b + rotl32 f (md5S.getD i 0)), b, c)

/-- Process one 512-bit block (16 little-endian words `M`). -/
def md5ProcessBlock (st : Nat × Nat × Nat × Nat) (M : List Nat) :
    Nat × Nat × Nat × Nat :=
  let r := (List.range 64).foldl (md5Round M) st
  (u32 (st.1 + r.1), u32 (st.2.1 + r.2.1), u32 (st.2.2.1 + r.2.2.1),
   u32 (st.2.2.2 + r.2.2.2))

/-- MD5 padding: append `0x80`, zero bytes to 56 mod 64, then the bit
length as a 64-bit little-endian quantity. -/
def md5Pad (msg : List Nat) : List Nat :=
  let len := msg.length
  let zeros := (56 + 64 - (len + 1) % 64) % 64
  let bitlen := (8 * len) % 18446744073709551616
  msg ++ [0x80] ++ List.replicate zeros 0 ++
    [bitlen % 256, (bitlen >>> 8) % 256, (bitlen >>> 16) % 256,
     (bitlen >>> 24) % 256, (bitlen >>> 32) % 256, (bitlen >>> 40) % 256,
     (bitlen >>> 48) % 256, (bitlen >>> 56) % 256]

/-- Split a byte list into chunks of 64.  Structural recursion on a fuel
argument (any fuel at least the list length gives the full split). -/
def chunks64 : Nat → List Nat → List (List Nat)
  | _, [] => []
  | 0, _ :: _ => []
  | fuel + 1, l => l.take 64 :: chunks64 fuel (l.drop 64)

/-- Group bytes into 32-bit little-endian words. -/
def leWords : List Nat → List Nat
  | b0 :: b1 :: b2 :: b3 :: rest =>
      (b0 + 256 * b1 + 65536 * b2 + 16777216 * b3) :: leWords rest
  | _ => []

/-- Little-endian byte decomposition of a 32-bit word. -/
def wordLEBytes (w : Nat) : List Nat :=
  [w % 256, (w >>> 8) % 256, (w >>> 16) % 256, (w >>> 24) % 256]

/-- Lowercase hexadecimal digit. -/
def hexChar (n : Nat) : Char :=
  if n < 10 then Char.ofNat (48 + n) else Char.ofNat (87 + n)

/-- Lowercase hexadecimal rendering of a byte list. -/
def bytesToHex (bs : List Nat) : String :=
  String.mk (bs.foldr (fun b acc => hexChar (b / 16) :: hexChar (b % 16) :: acc) [])

/-- The 16-byte MD5 digest of a byte string. -/
def md5Bytes (msg : List Nat) : List Nat :=
  let init : Nat × Nat × Nat × Nat :=
    (0x67452301, 0xefcdab89, 0x98badcfe, 0x10325476)
  let padded := md5Pad msg
  let r := (chunks64 padded.length padded).foldl
    (fun st ch => md5ProcessBlock st (leWords ch)) init
  wordLEBytes r.1 ++ wordLEBytes r.2.1 ++ wordLEBytes r.2.2.1 ++ wordLEBytes r.2.2.2

/-- UTF-8 encoding of a single character (model of Python `str.encode("utf-8")`
restricted to one code point). -/
def utf8EncodeCharNat (c : Char) : List Nat :=
  let n := c.toNat
  if n < 128 then [n]
  else if n < 2048 then [192 + n / 64, 128 + n % 64]
  else if n < 65536 then [224 + n / 4096, 128 + (n / 64) % 64, 128 + n % 64]
  else [240 + n / 262144, 128 + (n / 4096) % 64, 128 + (n / 64) % 64, 128 + n % 64]

/-- UTF-8 encoding of a string as a byte list (Python `text.encode("utf-8")`). -/
def strToBytes (s : String) : List Nat :=
  s.data.foldr (fun c acc => utf8EncodeCharNat c ++ acc) []

/-- Model of Python `hashlib.md5(text.encode("utf-8")).hexdigest()`. -/
def md5Hex (text : String) : String :=
  bytesToHex (md5Bytes (strToBytes text))

/-! ### Hash store data model (`ProjectRepoHashes`)

One per-file fingerprint entry of the record's `files` list.  Dates are
`Nat` timestamps; the caller passes the value of `datetime.utcnow()`
explicitly. -/

structure FileEntry where
  file_name : String
  file_hash : String
  deploy_date : Nat
  create_date : Nat
deriving DecidableEq, Repr

/-- A document of the `bigQueryDeployHash` Mongo collection, as returned by
`find_one`.  `mongo_id` models the `_id` field. -/
structure HashDoc where
  mongo_id : Nat
  project_name : String
  repo_name : String
  google_project_id : String
  create_date : Nat
  files : List FileEntry
deriving DecidableEq, Repr

/-- `collection.find_one({project_name, repo_name, google_project_id})`:
first document of the collection matching the triple. -/
def find_one (coll : List HashDoc) (project_name repo_name google_project_id : String) :
    Option HashDoc :=
  coll.find? (fun d =>
    d.project_name == project_name && d.repo_name == repo_name &&
      d.google_project_id == google_project_id)

/-- Python-dict insertion (insertion order kept, existing key overwritten in
place), used to model `dict((f["file_name"], f) for f in files)`. -/
def dictInsert (d : List (String × FileEntry)) (k : String) (v : FileEntry) :
    List (String × FileEntry) :=
  if (d.map Prod.fst).contains k then
    d.map (fun p => if p.1 = k then (p.1, v) else p)
  else d ++ [(k, v)]

/-- `dict((f["file_name"], f) for f in files)`: later duplicates win. -/
def dictOfFiles (files : List FileEntry) : List (String × FileEntry) :=
  files.foldl (fun d f => dictInsert d f.file_name f) []

/-- Python `d[k]` / `d.get(k)` on the modelled dict. -/
def dictLookup (d : List (String × FileEntry)) (k : String) : Option FileEntry :=
  (d.find? (fun p => p.1 == k)).map Prod.snd

/-- Python `k in d` on the modelled dict. -/
def dictContains (d : List (String × FileEntry)) (k : String) : Bool :=
  d.any (fun p => p.1 == k)

/-- In-memory state of a `ProjectRepoHashes` instance: the `self.hashes`
document plus the derived `self.filesdict`.  In Python the dict values
alias the entries of `files`; the pure model mirrors a mutation of a shared
entry by rewriting the entry with that `file_name` in both collections. -/
structure ProjectRepoHashes where
  project_name : String
  repo_name : String
  google_project_id : String
  create_date : Nat
  update_date : Nat
  mongo_id : Option Nat
  files : List FileEntry
  filesdict : List (String × FileEntry)
deriving DecidableEq, Repr

namespace ProjectRepoHashes

/-- `ProjectRepoHashes.__init__` after `_setup_mongo_collection`: run
`find_one` on the collection; if nothing was found build a fresh document
with an empty `files` list and no `_id`; always stamp `update_date` and
rebuild `filesdict` from `files`.  `now` is the value of
`datetime.datetime.utcnow()`. -/
def load (coll : List HashDoc) (project_name repo_name google_project_id : String)
    (now : Nat) : ProjectRepoHashes :=
  let hashes : ProjectRepoHashes :=
    match find_one coll project_name repo_name google_project_id with
    | some d =>
      { project_name := d.project_name, repo_name := d.repo_name,
        google_project_id := d.google_project_id,
        create_date := d.create_date, update_date := 0,
        mongo_id := some d.mongo_id, files := d.files, filesdict := [] }
    | none =>
      { project_name := project_name, repo_name := repo_name,
        google_project_id := google_project_id,
        create_date := now, update_date := 0,
        mongo_id := none, files := [], filesdict := [] }
  { hashes with update_date := now, filesdict := dictOfFiles hashes.files }

/-- `get_file_hash`: the stored hash for a file name, `""` when absent. -/
def get_file_hash (self : ProjectRepoHashes) (file_name : String) : String :=
  match dictLookup self.filesdict file_name with
  | some f => f.file_hash
  | none => ""

/-- `matches_saved_hash`: MD5 of the UTF-8 encoding of `text` compared for
equality with the stored hash. -/
def matches_saved_hash (self : ProjectRepoHashes) (file_name text : String) : Bool :=
  let new_hash := md5Hex text
  let old_hash := self.get_file_hash file_name
  new_hash == old_hash

/-- Update of a fingerprint entry in place (`file_attrs["file_hash"] = ...;
file_attrs["deploy_date"] = ...`). -/
def FileEntry.setHash (f : FileEntry) (file_hash : String) (now : Nat) : FileEntry :=
  { f with file_hash := file_hash, deploy_date := now }

/-- `update_saved_hash`: recompute the hash; when the name is already keyed
in `filesdict`, mutate that (shared) entry's `file_hash` and `deploy_date`;
otherwise append a fresh entry to `files` and key it in `filesdict`. -/
def update_saved_hash (self : ProjectRepoHashes) (file_name text : String)
    (now : Nat) : ProjectRepoHashes :=
  let file_hash := md5Hex text
  if dictContains self.filesdict file_name then
    { self with
      files := self.files.map (fun f =>
        if f.file_name = file_name then FileEntry.setHash f file_hash now else f),
      filesdict := self.filesdict.map (fun p =>
        if p.1 = file_name then (p.1, FileEntry.setHash p.2 file_hash now) else p) }
  else
    let new_hash : FileEntry :=
      { file_name := file_name, file_hash := file_hash,
        deploy_date := now, create_date := now }
    { self with
      files := self.files ++ [new_hash],
      filesdict := self.filesdict ++ [(file_name, new_hash)] }

/-- `save`: `replace_one` by `_id` when the record was loaded from storage,
otherwise `insert_one` (the new document receiving the fresh id `new_id`). -/
def toDoc (self : ProjectRepoHashes) (id : Nat) : HashDoc :=
  { mongo_id := id, project_name := self.project_name,
    repo_name := self.repo_name, google_project_id := self.google_project_id,
    create_date := self.create_date, files := self.files }

/-- Effect of `ProjectRepoHashes.save` on the collection. -/
def save (self : ProjectRepoHashes) (coll : List HashDoc) (new_id : Nat) :
    List HashDoc :=
  match self.mongo_id with
  | some i => coll.map (fun d => if d.mongo_id = i then self.toDoc i else d)
  | none => coll ++ [self.toDoc new_id]

end ProjectRepoHashes

/-! ### File locator (`find_ddl_files`) -/

/-- One entry of an `os.listdir` result, with the `os.path.isfile` answer
for it. -/
structure DirEntry where
  name : String
  is_file : Bool
deriving DecidableEq, Repr

/-- Model of `str.endswith(suffix)`: suffix test on the character list. -/
def strEndsWith (s suffix : String) : Bool :=
  suffix.data.isSuffixOf s.data

/-- Model of `os.path.join path entry` for a non-absolute `entry`. -/
def pathJoin (path entry : String) : String :=
  if path = "" then entry
  else if strEndsWith path "/" then path ++ entry
  else path ++ "/" ++ entry

/-- Lexicographic `≤` on character lists by code point — the comparison
Python's `list.sort()` applies to strings. -/
def charListLe : List Char → List Char → Bool
  | [], _ => true
  | _ :: _, [] => false
  | a :: as, b :: bs =>
    if a < b then true
    else if b < a then false
    else charListLe as bs

/-- Lexicographic `≤` on strings. -/
def strLe (a b : String) : Bool :=
  charListLe a.data b.data

/-- `find_ddl_files`: `os.listdir` either raises `OSError` (`listing = none`,
logged and turned into `[]`) or yields the directory entries; keep the
regular files whose name ends in `.sql`, joined to `path`, and sort them
(`list.sort()` is ascending lexicographic order on strings, modelled by
insertion sort, which computes the same sorted list). -/
def find_ddl_files (path : String) (listing : Option (List DirEntry)) :
    List String :=
  match listing with
  | none => []
  | some files =>
    let ddl_files := (files.filter
      (fun entry => strEndsWith entry.name ".sql" && entry.is_file)).map
        (fun entry => pathJoin path entry.name)
    ddl_files.insertionSort (fun a b => strLe a b = true)

/-! ### Executor and deploy orchestrator -/

/-- Outcome of `execute_sql` for one file: `subprocess.run(..., check=True)`
either returns (exit status 0) or raises `CalledProcessError` with the exit
code and the captured streams. -/
inductive ExecOutcome where
  | success (stdout stderr : String)
  | failure (returncode : Int) (stdout stderr : String)
deriving DecidableEq, Repr

/-- Observable step of the deploy loop, in order of occurrence: a skipped
file, an Executor invocation, a `save` of the in-memory record (the
persisted snapshot is carried), or the `sys.exit(3)` on a failed file. -/
inductive DeployEvent where
  | skipped (file : String)
  | executed (file : String)
  | saved (file : String) (snapshot : ProjectRepoHashes)
  | failed (file : String) (returncode : Int)
deriving DecidableEq, Repr

/-- Result of a `deploy` run: the process exit status (`0` when the loop
finishes, `3` for `sys.exit(3)`), the final in-memory record, and the
ordered event trace. -/
structure DeployResult where
  exit_code : Nat
  store : ProjectRepoHashes
  events : List DeployEvent
deriving DecidableEq, Repr

/-- The `for ddl_file in ddl_files` loop of `deploy`.  `ex file sql` is the
outcome of `execute_sql sql google_project_id` for that file, `clock k` the
`utcnow()` value at step `k`.  Skipped files leave the store untouched; a
successful execution updates the hash and saves at once; a failure exits
the process with status 3 without touching the store. -/
def deployLoop (ex : String → String → ExecOutcome) (clock : Nat → Nat)
    (store : ProjectRepoHashes) :
    List (String × String) → Nat → DeployResult
  | [], _ => { exit_code := 0, store := store, events := [] }
  | (file, sql) :: rest, k =>
    if store.matches_saved_hash file sql then
      let r := deployLoop ex clock store rest (k + 1)
      { r with events := DeployEvent.skipped file :: r.events }
    else
      match ex file sql with
      | ExecOutcome.failure code _out _err =>
        { exit_code := 3, store := store,
          events := [DeployEvent.executed file, DeployEvent.failed file code] }
      | ExecOutcome.success _out _err =>
        let updated := store.update_saved_hash file sql (clock k)
        let r := deployLoop ex clock updated rest (k + 1)
        { r with events :=
            DeployEvent.executed file :: DeployEvent.saved file updated :: r.events }

/-- `deploy` after the store is loaded: read each located file
(`get_sql`, modelled by `readFile`) and run the loop. -/
def deploy (readFile : String → String) (ex : String → String → ExecOutcome)
    (clock : Nat → Nat) (store : ProjectRepoHashes) (ddl_files : List String) :
    DeployResult :=
  deployLoop ex clock store (ddl_files.map (fun f => (f, readFile f))) 0

/-! ### Concrete sample states used by the witness theorems -/

/-- A store loaded against an empty collection (fresh triple). -/
def sampleStore : ProjectRepoHashes :=
  ProjectRepoHashes.load [] "owner" "repo" "gcp" 0

/-- The fresh store after one recorded deployment of `a.sql`. -/
def sampleStore1 : ProjectRepoHashes :=
  sampleStore.update_saved_hash "a.sql" "CREATE TABLE t;" 1

/-- A stored document used by the C7 witness. -/
def sampleDoc : HashDoc :=
  { mongo_id := 7, project_name := "owner", repo_name := "repo",
    google_project_id := "gcp", create_date := 5,
    files := [{ file_name := "a.sql", file_hash := "h", deploy_date := 1,
                create_date := 1 }] }

/-- Well-formedness of the in-memory record: every `filesdict` binding
points at an entry of `files` carrying that very file name, and no key is
bound twice. -/
def StoreWF (s : ProjectRepoHashes) : Prop :=
  (∀ p ∈ s.filesdict, p.2 ∈ s.files ∧ p.2.file_name = p.1) ∧
  (s.filesdict.map Prod.fst).Nodup

/-! ### Digest shape lemmas -/

/-- RFC 1321 test vector: MD5 of the empty string. -/
theorem md5Hex_vector_empty : md5Hex "" = "d41d8cd98f00b204e9800998ecf8427e" := by
  decide

/-- RFC 1321 test vector: MD5 of `"abc"`. -/
theorem md5Hex_vector_abc : md5Hex "abc" = "900150983cd24fb0d6963f7d28e17f72" := by
  decide

/-- Cross-checked digest of a one-statement SQL string. -/
theorem md5Hex_vector_sql :
    md5Hex "SELECT 1;" = "71568061b2970a4b7c5160fe75356e10" := by
  decide

theorem hexFoldr_length (bs : List Nat) :
    (bs.foldr (fun b acc => hexChar (b / 16) :: hexChar (b % 16) :: acc) []).length
      = 2 * bs.length := by
  induction bs with
  | nil => rfl
  | cons b bs ih => simp [ih]; omega

theorem bytesToHex_length (bs : List Nat) :
    (bytesToHex bs).length = 2 * bs.length := by
  simpa [bytesToHex, String.length] using hexFoldr_length bs

theorem md5Bytes_length (msg : List Nat) : (md5Bytes msg).length = 16 := by
  simp [md5Bytes, wordLEBytes]

theorem md5Hex_length (s : String) : (md5Hex s).length = 32 := by
  simp [md5Hex, bytesToHex_length, md5Bytes_length]

/-- An MD5 hex digest is never the empty string. -/
theorem md5Hex_ne_empty (s : String) : md5Hex s ≠ "" := by
  intro h
  have h32 := md5Hex_length s
  rw [h] at h32
  simp [String.length] at h32

/-! ### Dictionary lemmas -/

theorem dictContains_eq_isSome (d : List (String × FileEntry)) (k : String) :
    dictContains d k = (dictLookup d k).isSome := by
  induction d with
  | nil => rfl
  | cons p ps ih =>
    by_cases hp : p.1 == k
    · simp [dictContains, dictLookup, List.find?, List.any, hp]
    · simp only [Bool.not_eq_true] at hp
      simp [dictContains, dictLookup, List.find?, List.any, hp] at ih ⊢
      exact ih

theorem dictLookup_append_of_none (d d' : List (String × FileEntry)) (k : String)
    (h : dictLookup d k = none) :
    dictLookup (d ++ d') k = dictLookup d' k := by
  induction d with
  | nil => rfl
  | cons p ps ih =>
    by_cases hp : p.1 == k
    · simp [dictLookup, List.find?, hp] at h
    · simp only [Bool.not_eq_true] at hp
      simp only [dictLookup, List.cons_append, List.find?, hp] at h ⊢
      exact ih h

theorem dictLookup_map_set (d : List (String × FileEntry)) (k h0 : String) (now : Nat) :
    dictLookup (d.map (fun p =>
        if p.1 = k then (p.1, ProjectRepoHashes.FileEntry.setHash p.2 h0 now) else p)) k
      = (dictLookup d k).map (fun v => ProjectRepoHashes.FileEntry.setHash v h0 now) := by
  induction d with
  | nil => rfl
  | cons p ps ih =>
    by_cases hp : p.1 = k
    · simp [dictLookup, List.find?, hp]
    · simp only [dictLookup, List.map_cons, List.find?, if_neg hp] at ih ⊢
      have hb : (p.1 == k) = false := by simp [hp]
      simp only [hb] at ih ⊢
      exact ih

/-- Unfolding equation of `update_saved_hash` when the name is keyed. -/
theorem update_eq_of_contains (s : ProjectRepoHashes) (file_name text : String)
    (now : Nat) (h : dictContains s.filesdict file_name = true) :
    s.update_saved_hash file_name text now =
      { s with
        files := s.files.map (fun f =>
          if f.file_name = file_name then
            ProjectRepoHashes.FileEntry.setHash f (md5Hex text) now
          else f),
        filesdict := s.filesdict.map (fun p =>
          if p.1 = file_name then
            (p.1, ProjectRepoHashes.FileEntry.setHash p.2 (md5Hex text) now)
          else p) } := by
  simp only [ProjectRepoHashes.update_saved_hash]
  rw [if_pos h]

/-- Unfolding equation of `update_saved_hash` when the name is unkeyed. -/
theorem update_eq_of_not_contains (s : ProjectRepoHashes) (file_name text : String)
    (now : Nat) (h : dictContains s.filesdict file_name = false) :
    s.update_saved_hash file_name text now =
      { s with
        files := s.files ++
          [{ file_name := file_name, file_hash := md5Hex text,
             deploy_date := now, create_date := now }],
        filesdict := s.filesdict ++
          [(file_name,
            { file_name := file_name, file_hash := md5Hex text,
              deploy_date := now, create_date := now })] } := by
  simp only [ProjectRepoHashes.update_saved_hash]
  rw [if_neg (by simp [h])]

/-! ### Claim theorems: hash round trip and the unrecorded case -/

/-- Claim C1: for every store, file name and content, `matches_saved_hash`
immediately after `update_saved_hash` on the same name and content returns
`true`: both compute `md5Hex` of the UTF-8 encoding of the content and
compare for equality. -/
theorem matches_after_update (s : ProjectRepoHashes) (file_name text : String)
    (now : Nat) :
    (s.update_saved_hash file_name text now).matches_saved_hash file_name text
      = true := by
  unfold ProjectRepoHashes.matches_saved_hash ProjectRepoHashes.get_file_hash
    ProjectRepoHashes.update_saved_hash
  by_cases hc : dictContains s.filesdict file_name
  · simp only [hc, if_true]
    rw [dictLookup_map_set]
    have hs := dictContains_eq_isSome s.filesdict file_name
    rw [hc] at hs
    cases hv : dictLookup s.filesdict file_name with
    | none => rw [hv] at hs; simp at hs
    | some v => simp [hv, ProjectRepoHashes.FileEntry.setHash]
  · simp only [Bool.not_eq_true] at hc
    have hnone : dictLookup s.filesdict file_name = none := by
      have hs := dictContains_eq_isSome s.filesdict file_name
      rw [hc] at hs
      cases hv : dictLookup s.filesdict file_name with
      | none => rfl
      | some v => rw [hv] at hs; simp at hs
    simp only [hc, if_false, Bool.false_eq_true]
    rw [dictLookup_append_of_none _ _ _ hnone]
    simp [dictLookup, List.find?]

/-- Claim C8: a file name with no entry in the store never matches: the
"not found" sentinel is `""`, an MD5 hex digest is never empty, so the
equality test fails. -/
theorem matches_unrecorded_false (s : ProjectRepoHashes) (file_name text : String)
    (h : dictLookup s.filesdict file_name = none) :
    s.get_file_hash file_name = "" ∧ md5Hex text ≠ "" ∧
      s.matches_saved_hash file_name text = false := by
  have hget : s.get_file_hash file_name = "" := by
    unfold ProjectRepoHashes.get_file_hash
    rw [h]
  refine ⟨hget, md5Hex_ne_empty text, ?_⟩
  unfold ProjectRepoHashes.matches_saved_hash
  rw [hget]
  simp [md5Hex_ne_empty text]

/-- Witness for C8: the fresh sample store has no entry for `x.sql`, and
`matches_saved_hash` on it returns `false`. -/
theorem matches_unrecorded_false_witness :
    sampleStore.get_file_hash "x.sql" = "" ∧ md5Hex "SELECT 1;" ≠ "" ∧
      sampleStore.matches_saved_hash "x.sql" "SELECT 1;" = false :=
  matches_unrecorded_false sampleStore "x.sql" "SELECT 1;" rfl

/-- Claim C4: `update_saved_hash` recomputes the hash of the content; when
the name already has an entry it updates that entry's `file_hash` and
`deploy_date` in place (the entry count is unchanged and the entry keeps
its other fields), otherwise it appends a new entry whose `create_date`
and `deploy_date` are both the current time. -/
theorem update_saved_hash_spec (s : ProjectRepoHashes) (file_name text : String)
    (now : Nat) :
    (∀ v, dictLookup s.filesdict file_name = some v →
      (s.update_saved_hash file_name text now).files.length = s.files.length ∧
      dictLookup (s.update_saved_hash file_name text now).filesdict file_name =
        some { v with file_hash := md5Hex text, deploy_date := now }) ∧
    (dictLookup s.filesdict file_name = none →
      (s.update_saved_hash file_name text now).files =
        s.files ++ [{ file_name := file_name, file_hash := md5Hex text,
                      deploy_date := now, create_date := now }] ∧
      dictLookup (s.update_saved_hash file_name text now).filesdict file_name =
        some { file_name := file_name, file_hash := md5Hex text,
               deploy_date := now, create_date := now }) := by
  constructor
  · intro v hv
    have hc : dictContains s.filesdict file_name = true := by
      rw [dictContains_eq_isSome, hv]; rfl
    rw [update_eq_of_contains s file_name text now hc]
    refine ⟨by simp, ?_⟩
    simp only
    rw [dictLookup_map_set, hv]
    rfl
  · intro hv
    have hc : dictContains s.filesdict file_name = false := by
      rw [dictContains_eq_isSome, hv]; rfl
    rw [update_eq_of_not_contains s file_name text now hc]
    refine ⟨rfl, ?_⟩
    simp only
    rw [dictLookup_append_of_none _ _ _ hv]
    simp [dictLookup, List.find?]

/-- Witness for C4: both branches at concrete inputs — updating the
existing `a.sql` entry of `sampleStore1` keeps one entry and rewrites its
hash and deploy date, and a first update of a fresh store appends the new
entry with both dates set to the current time. -/
theorem update_saved_hash_spec_witness :
    ((sampleStore1.update_saved_hash "a.sql" "ALTER TABLE t;" 2).files.length
        = sampleStore1.files.length ∧
      dictLookup (sampleStore1.update_saved_hash "a.sql" "ALTER TABLE t;" 2).filesdict
          "a.sql" =
        some { file_name := "a.sql", file_hash := md5Hex "ALTER TABLE t;",
               deploy_date := 2, create_date := 1 }) ∧
    ((sampleStore.update_saved_hash "a.sql" "CREATE TABLE t;" 1).files =
        sampleStore.files ++
          [{ file_name := "a.sql", file_hash := md5Hex "CREATE TABLE t;",
             deploy_date := 1, create_date := 1 }] ∧
      dictLookup (sampleStore.update_saved_hash "a.sql" "CREATE TABLE t;" 1).filesdict
          "a.sql" =
        some { file_name := "a.sql", file_hash := md5Hex "CREATE TABLE t;",
               deploy_date := 1, create_date := 1 }) := by
  constructor
  · exact (update_saved_hash_spec sampleStore1 "a.sql" "ALTER TABLE t;" 2).1
      { file_name := "a.sql", file_hash := md5Hex "CREATE TABLE t;",
        deploy_date := 1, create_date := 1 } rfl
  · exact (update_saved_hash_spec sampleStore "a.sql" "CREATE TABLE t;" 1).2 rfl

/-- Claim C10: updating an existing entry is a frame-preserving operation:
the record's identifying fields are unchanged, the files list keeps its
length, every entry with a different name is untouched, and the matching
entry changes only `file_hash` and `deploy_date` (its `file_name` and
`create_date` are kept by the record update). -/
theorem update_saved_hash_frame (s : ProjectRepoHashes) (file_name text : String)
    (now : Nat) (h : dictContains s.filesdict file_name = true) :
    (s.update_saved_hash file_name text now).project_name = s.project_name ∧
    (s.update_saved_hash file_name text now).repo_name = s.repo_name ∧
    (s.update_saved_hash file_name text now).google_project_id = s.google_project_id ∧
    (s.update_saved_hash file_name text now).create_date = s.create_date ∧
    (s.update_saved_hash file_name text now).update_date = s.update_date ∧
    (s.update_saved_hash file_name text now).mongo_id = s.mongo_id ∧
    (s.update_saved_hash file_name text now).files.length = s.files.length ∧
    ∀ i (hi : i < s.files.length)
      (hu : i < (s.update_saved_hash file_name text now).files.length),
      ((s.files.get ⟨i, hi⟩).file_name ≠ file_name →
        (s.update_saved_hash file_name text now).files.get ⟨i, hu⟩ =
          s.files.get ⟨i, hi⟩) ∧
      ((s.files.get ⟨i, hi⟩).file_name = file_name →
        (s.update_saved_hash file_name text now).files.get ⟨i, hu⟩ =
          { s.files.get ⟨i, hi⟩ with file_hash := md5Hex text, deploy_date := now }) := by
  rw [update_eq_of_contains s file_name text now h]
  refine ⟨rfl, rfl, rfl, rfl, rfl, rfl, by simp, ?_⟩
  intro i hi hu
  constructor
  · intro hne
    simp only [List.get_eq_getElem, List.getElem_map] at hne ⊢
    simp [hne]
  · intro heq
    simp only [List.get_eq_getElem, List.getElem_map] at heq ⊢
    simp [heq, ProjectRepoHashes.FileEntry.setHash]

/-! ### The `filesdict`/`files` consistency invariant -/

theorem mem_dictInsert {d : List (String × FileEntry)} {k : String}
    {v : FileEntry} {p : String × FileEntry} (h : p ∈ dictInsert d k v) :
    p ∈ d ∨ p = (k, v) := by
  unfold dictInsert at h
  split at h
  · obtain ⟨q, hq, he⟩ := List.mem_map.mp h
    by_cases hk : q.1 = k
    · right
      rw [← he, if_pos hk, hk]
    · left
      rw [← he, if_neg hk]
      exact hq
  · rcases List.mem_append.mp h with h1 | h2
    · exact Or.inl h1
    · right
      simpa using h2

theorem keys_map_fst_invariant (d : List (String × FileEntry)) (k : String)
    (v : FileEntry) :
    (d.map (fun p => if p.1 = k then (p.1, v) else p)).map Prod.fst
      = d.map Prod.fst := by
  induction d with
  | nil => rfl
  | cons p ps ih =>
    by_cases hk : p.1 = k
    · simp only [List.map_cons, if_pos hk, ih]
    · simp only [List.map_cons, if_neg hk, ih]

theorem keys_dictInsert (d : List (String × FileEntry)) (k : String) (v : FileEntry) :
    (dictInsert d k v).map Prod.fst =
      if (d.map Prod.fst).contains k then d.map Prod.fst
      else d.map Prod.fst ++ [k] := by
  unfold dictInsert
  by_cases hc : (d.map Prod.fst).contains k
  · rw [if_pos hc, if_pos hc, keys_map_fst_invariant]
  · rw [if_neg hc, if_neg hc]
    simp

theorem dictOfFiles_mem_aux (files : List FileEntry) :
    ∀ (acc : List (String × FileEntry)) (p : String × FileEntry),
      p ∈ files.foldl (fun d f => dictInsert d f.file_name f) acc →
      p ∈ acc ∨ ∃ f, f ∈ files ∧ p = (f.file_name, f) := by
  induction files with
  | nil =>
    intro acc p h
    exact Or.inl h
  | cons f fs ih =>
    intro acc p h
    simp only [List.foldl_cons] at h
    rcases ih _ p h with h1 | ⟨g, hg, he⟩
    · rcases mem_dictInsert h1 with h2 | h2
      · exact Or.inl h2
      · exact Or.inr ⟨f, List.mem_cons_self f fs, h2⟩
    · exact Or.inr ⟨g, List.mem_cons_of_mem f hg, he⟩

theorem dictOfFiles_keys_nodup_aux (files : List FileEntry) :
    ∀ acc : List (String × FileEntry),
      (acc.map Prod.fst).Nodup →
      ((files.foldl (fun d f => dictInsert d f.file_name f) acc).map Prod.fst).Nodup := by
  induction files with
  | nil =>
    intro acc hacc
    exact hacc
  | cons f fs ih =>
    intro acc hacc
    simp only [List.foldl_cons]
    apply ih
    rw [keys_dictInsert]
    by_cases hc : (acc.map Prod.fst).contains f.file_name
    · rw [if_pos hc]
      exact hacc
    · rw [if_neg hc]
      have hnm : f.file_name ∉ acc.map Prod.fst := by
        intro hmem
        exact hc (List.contains_iff_exists_mem_beq.mpr ⟨_, hmem, by simp⟩)
      simp [List.nodup_append, hacc, hnm]

theorem dictOfFiles_wf (files : List FileEntry) :
    (∀ p ∈ dictOfFiles files, p.2 ∈ files ∧ p.2.file_name = p.1) ∧
    ((dictOfFiles files).map Prod.fst).Nodup := by
  constructor
  · intro p hp
    rcases dictOfFiles_mem_aux files [] p hp with h | ⟨f, hf, he⟩
    · simp at h
    · rw [he]
      exact ⟨hf, rfl⟩
  · exact dictOfFiles_keys_nodup_aux files [] (by simp)

theorem dictContains_false_not_mem {d : List (String × FileEntry)} {k : String}
    (h : dictContains d k = false) : k ∉ d.map Prod.fst := by
  intro hmem
  obtain ⟨p, hp, he⟩ := List.mem_map.mp hmem
  have : d.any (fun p => p.1 == k) = true :=
    List.any_eq_true.mpr ⟨p, hp, by simp [he]⟩
  rw [dictContains, this] at h
  cases h

/-- Claim C9: the store keeps `filesdict` consistent with `files` (every
binding maps a name to an entry of `files` with that name, no name bound
twice); this holds after `__init__` and is preserved by every
`update_saved_hash`, which keeps the entry count on an existing name and
grows `files` by exactly one on a new name. -/
theorem hash_store_invariant :
    (∀ (coll : List HashDoc) (project repo gcp : String) (now : Nat),
      StoreWF (ProjectRepoHashes.load coll project repo gcp now)) ∧
    (∀ (s : ProjectRepoHashes) (file_name text : String) (now : Nat),
      StoreWF s →
      StoreWF (s.update_saved_hash file_name text now) ∧
      (dictContains s.filesdict file_name = true →
        (s.update_saved_hash file_name text now).files.length = s.files.length) ∧
      (dictContains s.filesdict file_name = false →
        (s.update_saved_hash file_name text now).files.length
          = s.files.length + 1)) := by
  constructor
  · intro coll project repo gcp now
    unfold ProjectRepoHashes.load
    cases hfind : find_one coll project repo gcp with
    | none => exact dictOfFiles_wf _
    | some d => exact dictOfFiles_wf _
  · intro s file_name text now hwf
    by_cases hc : dictContains s.filesdict file_name
    · rw [update_eq_of_contains s file_name text now hc]
      refine ⟨⟨?_, ?_⟩, ?_, ?_⟩
      · intro p hp
        obtain ⟨q, hq, he⟩ := List.mem_map.mp hp
        obtain ⟨hqf, hqn⟩ := hwf.1 q hq
        by_cases hk : q.1 = file_name
        · rw [← he, if_pos hk]
          constructor
          · exact List.mem_map.mpr ⟨q.2, hqf, by simp [hqn.trans hk]⟩
          · simpa [ProjectRepoHashes.FileEntry.setHash] using hqn
        · rw [← he, if_neg hk]
          constructor
          · exact List.mem_map.mpr ⟨q.2, hqf, by simp [hqn, hk]⟩
          · exact hqn
      · have hkeys :
            ((s.filesdict.map (fun p =>
              if p.1 = file_name then
                (p.1, ProjectRepoHashes.FileEntry.setHash p.2 (md5Hex text) now)
              else p)).map Prod.fst) = s.filesdict.map Prod.fst := by
          induction s.filesdict with
          | nil => rfl
          | cons p ps ih =>
            by_cases hk : p.1 = file_name
            · simp only [List.map_cons, if_pos hk, ih]
            · simp only [List.map_cons, if_neg hk, ih]
        rw [hkeys]
        exact hwf.2
      · intro _
        simp
      · intro hfalse
        rw [hc] at hfalse
        cases hfalse
    · simp only [Bool.not_eq_true] at hc
      rw [update_eq_of_not_contains s file_name text now hc]
      refine ⟨⟨?_, ?_⟩, ?_, ?_⟩
      · intro p hp
        rcases List.mem_append.mp hp with h1 | h2
        · obtain ⟨hpf, hpn⟩ := hwf.1 p h1
          exact ⟨List.mem_append_left _ hpf, hpn⟩
        · have hpe : p = (file_name,
              { file_name := file_name, file_hash := md5Hex text,
                deploy_date := now, create_date := now }) := by simpa using h2
          rw [hpe]
          exact ⟨List.mem_append_right _ (by simp), rfl⟩
      · simp only [List.map_append, List.map_cons, List.map_nil]
        rw [List.nodup_append]
        exact ⟨hwf.2, List.nodup_singleton _,
          by
            intro a ha hb
            simp only [List.mem_singleton] at hb
            rw [hb] at ha
            exact dictContains_false_not_mem hc ha⟩
      · intro htrue
        rw [hc] at htrue
        cases htrue
      · intro _
        simp

/-- Witness for C9: the invariant holds for the one-entry sample store and
is kept by an update of its existing entry, entry count unchanged. -/
theorem hash_store_invariant_witness :
    StoreWF (sampleStore1.update_saved_hash "a.sql" "ALTER TABLE t;" 2) ∧
    (sampleStore1.update_saved_hash "a.sql" "ALTER TABLE t;" 2).files.length
      = sampleStore1.files.length := by
  have h := hash_store_invariant.2 sampleStore1 "a.sql" "ALTER TABLE t;" 2
    (by constructor
        · decide
        · decide)
  exact ⟨h.1, h.2.1 (by decide)⟩

/-- Witness for C10: updating `a.sql` in `sampleStore1` keeps the record
fields and the single-entry length. -/
theorem update_saved_hash_frame_witness :
    (sampleStore1.update_saved_hash "a.sql" "ALTER TABLE t;" 2).project_name
        = sampleStore1.project_name ∧
    (sampleStore1.update_saved_hash "a.sql" "ALTER TABLE t;" 2).files.length
        = sampleStore1.files.length := by
  have hframe := update_saved_hash_frame sampleStore1 "a.sql" "ALTER TABLE t;" 2
    (by decide)
  exact ⟨hframe.1, hframe.2.2.2.2.2.2.1⟩

/-! ### File locator claims -/

theorem charListLe_total : ∀ as bs : List Char,
    charListLe as bs = true ∨ charListLe bs as = true
  | [], _ => Or.inl rfl
  | _ :: _, [] => Or.inr rfl
  | a :: as, b :: bs => by
    by_cases h1 : a < b
    · left
      simp [charListLe, h1]
    · by_cases h2 : b < a
      · right
        simp [charListLe, h2]
      · rcases charListLe_total as bs with h | h <;>
          simp [charListLe, h1, h2, h]

theorem charListLe_trans : ∀ as bs cs : List Char,
    charListLe as bs = true → charListLe bs cs = true → charListLe as cs = true
  | [], _, _, _, _ => rfl
  | _ :: _, [], _, h1, _ => by simp [charListLe] at h1
  | _ :: _, _ :: _, [], _, h2 => by simp [charListLe] at h2
  | a :: as, b :: bs, c :: cs, h1, h2 => by
    by_cases hab : a < b
    · by_cases hbc : b < c
      · simp [charListLe, lt_trans hab hbc]
      · by_cases hcb : c < b
        · simp [charListLe, hbc, hcb] at h2
        · have hbceq : b = c := le_antisymm (not_lt.mp hcb) (not_lt.mp hbc)
          simp [charListLe, hbceq ▸ hab]
    · by_cases hba : b < a
      · simp [charListLe, hab, hba] at h1
      · have habeq : a = b := le_antisymm (not_lt.mp hba) (not_lt.mp hab)
        simp only [charListLe, if_neg hab, if_neg hba] at h1
        subst habeq
        by_cases hac : a < c
        · simp [charListLe, hac]
        · by_cases hca : c < a
          · simp [charListLe, hac, hca] at h2
          · simp only [charListLe, if_neg hac, if_neg hca] at h2 ⊢
            exact charListLe_trans as bs cs h1 h2

theorem charListLe_eq_or_lex : ∀ as bs : List Char,
    charListLe as bs = true → as = bs ∨ List.Lex (· < ·) as bs
  | [], [], _ => Or.inl rfl
  | [], _ :: _, _ => Or.inr List.Lex.nil
  | _ :: _, [], h => by simp [charListLe] at h
  | a :: as, b :: bs, h => by
    by_cases hab : a < b
    · exact Or.inr (List.Lex.rel hab)
    · by_cases hba : b < a
      · simp [charListLe, hab, hba] at h
      · have habeq : a = b := le_antisymm (not_lt.mp hba) (not_lt.mp hab)
        subst habeq
        simp only [charListLe, if_neg hab, if_neg hba] at h
        rcases charListLe_eq_or_lex as bs h with he | hl
        · exact Or.inl (by rw [he])
        · exact Or.inr (List.Lex.cons hl)

/-- Claim C5: the locator returns exactly the regular files of the listed
directory whose name ends in `.sql`, joined to the directory path, in
ascending lexicographic (code point) order; on the directory
`b.sql, a.sql, c.txt` of regular files it returns exactly
`["a.sql", "b.sql"]`. -/
theorem find_ddl_files_spec (path : String) (entries : List DirEntry) :
    (find_ddl_files path (some entries)).Pairwise
      (fun a b : String => a = b ∨ List.Lex (· < ·) a.data b.data) ∧
    (find_ddl_files path (some entries)).Perm
      ((entries.filter (fun e => strEndsWith e.name ".sql" && e.is_file)).map
        (fun e => pathJoin path e.name)) ∧
    find_ddl_files ""
        (some [{ name := "b.sql", is_file := true },
               { name := "a.sql", is_file := true },
               { name := "c.txt", is_file := true }])
      = ["a.sql", "b.sql"] := by
  haveI htot : IsTotal String (fun a b : String => strLe a b = true) :=
    ⟨fun a b => charListLe_total a.data b.data⟩
  haveI htrans : IsTrans String (fun a b : String => strLe a b = true) :=
    ⟨fun a b c h1 h2 => charListLe_trans a.data b.data c.data h1 h2⟩
  refine ⟨?_, List.perm_insertionSort _ _, by decide⟩
  have hsorted := List.sorted_insertionSort (fun a b : String => strLe a b = true)
    ((entries.filter (fun e => strEndsWith e.name ".sql" && e.is_file)).map
      (fun e => pathJoin path e.name))
  refine hsorted.imp ?_
  intro a b h
  rcases charListLe_eq_or_lex a.data b.data h with he | hl
  · left
    cases a
    cases b
    simp only at he
    rw [he]
  · exact Or.inr hl

/-- Claim C7: loading the store finds the record for the triple (any found
document does carry the queried triple); when none exists a fresh record is
built with an empty files list, the current time as `create_date` and no
storage identity; in both cases `update_date` is stamped with the current
time. -/
theorem load_spec (coll : List HashDoc) (project repo gcp : String) (now : Nat) :
    (ProjectRepoHashes.load coll project repo gcp now).update_date = now ∧
    (find_one coll project repo gcp = none →
      (ProjectRepoHashes.load coll project repo gcp now).files = [] ∧
      (ProjectRepoHashes.load coll project repo gcp now).filesdict = [] ∧
      (ProjectRepoHashes.load coll project repo gcp now).create_date = now ∧
      (ProjectRepoHashes.load coll project repo gcp now).mongo_id = none ∧
      (ProjectRepoHashes.load coll project repo gcp now).project_name = project ∧
      (ProjectRepoHashes.load coll project repo gcp now).repo_name = repo ∧
      (ProjectRepoHashes.load coll project repo gcp now).google_project_id = gcp) ∧
    (∀ d, find_one coll project repo gcp = some d →
      d.project_name = project ∧ d.repo_name = repo ∧ d.google_project_id = gcp ∧
      (ProjectRepoHashes.load coll project repo gcp now).mongo_id = some d.mongo_id ∧
      (ProjectRepoHashes.load coll project repo gcp now).files = d.files ∧
      (ProjectRepoHashes.load coll project repo gcp now).create_date = d.create_date) := by
  refine ⟨?_, ?_, ?_⟩
  · unfold ProjectRepoHashes.load
    cases hfind : find_one coll project repo gcp <;> rfl
  · intro hfind
    unfold ProjectRepoHashes.load
    rw [hfind]
    exact ⟨rfl, rfl, rfl, rfl, rfl, rfl, rfl⟩
  · intro d hfind
    have hmatch := List.find?_some hfind
    simp only [Bool.and_eq_true, beq_iff_eq] at hmatch
    unfold ProjectRepoHashes.load
    rw [hfind]
    exact ⟨hmatch.1.1, hmatch.1.2, hmatch.2, rfl, rfl, rfl⟩

/-- Witness for C7: both the fresh-triple branch (empty collection) and the
found branch (singleton collection) at concrete inputs. -/
theorem load_spec_witness :
    ((ProjectRepoHashes.load [] "owner" "repo" "gcp" 3).update_date = 3 ∧
     (ProjectRepoHashes.load [] "owner" "repo" "gcp" 3).files = [] ∧
     (ProjectRepoHashes.load [] "owner" "repo" "gcp" 3).create_date = 3 ∧
     (ProjectRepoHashes.load [] "owner" "repo" "gcp" 3).mongo_id = none) ∧
    ((ProjectRepoHashes.load [sampleDoc] "owner" "repo" "gcp" 9).update_date = 9 ∧
     (ProjectRepoHashes.load [sampleDoc] "owner" "repo" "gcp" 9).mongo_id = some 7 ∧
     (ProjectRepoHashes.load [sampleDoc] "owner" "repo" "gcp" 9).files
        = sampleDoc.files ∧
     (ProjectRepoHashes.load [sampleDoc] "owner" "repo" "gcp" 9).create_date = 5) := by
  have h1 := load_spec [] "owner" "repo" "gcp" 3
  have h2 := load_spec [sampleDoc] "owner" "repo" "gcp" 9
  have h1n := h1.2.1 rfl
  have h2s := h2.2.2 sampleDoc rfl
  exact ⟨⟨h1.1, h1n.1, h1n.2.2.1, h1n.2.2.2.1⟩,
         ⟨h2.1, h2s.2.2.2.1, h2s.2.2.2.2.1, h2s.2.2.2.2.2⟩⟩

/-! ### Deploy loop step lemmas -/

theorem deployLoop_cons_of_matches {ex : String → String → ExecOutcome}
    {clock : Nat → Nat} {store : ProjectRepoHashes} {file sql : String}
    {l : List (String × String)} {k : Nat}
    (h : store.matches_saved_hash file sql = true) :
    deployLoop ex clock store ((file, sql) :: l) k =
      { exit_code := (deployLoop ex clock store l (k + 1)).exit_code,
        store := (deployLoop ex clock store l (k + 1)).store,
        events := DeployEvent.skipped file ::
          (deployLoop ex clock store l (k + 1)).events } := by
  simp [deployLoop, h]

theorem deployLoop_cons_of_fail {ex : String → String → ExecOutcome}
    {clock : Nat → Nat} {store : ProjectRepoHashes} {file sql : String}
    {l : List (String × String)} {k : Nat} {code : Int} {out err : String}
    (hm : store.matches_saved_hash file sql = false)
    (hx : ex file sql = ExecOutcome.failure code out err) :
    deployLoop ex clock store ((file, sql) :: l) k =
      { exit_code := 3, store := store,
        events := [DeployEvent.executed file, DeployEvent.failed file code] } := by
  simp [deployLoop, hm, hx]

theorem deployLoop_cons_of_success {ex : String → String → ExecOutcome}
    {clock : Nat → Nat} {store : ProjectRepoHashes} {file sql : String}
    {l : List (String × String)} {k : Nat} {out err : String}
    (hm : store.matches_saved_hash file sql = false)
    (hx : ex file sql = ExecOutcome.success out err) :
    deployLoop ex clock store ((file, sql) :: l) k =
      { exit_code := (deployLoop ex clock
          (store.update_saved_hash file sql (clock k)) l (k + 1)).exit_code,
        store := (deployLoop ex clock
          (store.update_saved_hash file sql (clock k)) l (k + 1)).store,
        events := DeployEvent.executed file ::
          DeployEvent.saved file (store.update_saved_hash file sql (clock k)) ::
          (deployLoop ex clock
            (store.update_saved_hash file sql (clock k)) l (k + 1)).events } := by
  simp [deployLoop, hm, hx]

/-- A prefix that finished with exit code 0 factors out of a longer run:
the remaining files run from the prefix's final store, and the traces
concatenate. -/
theorem deployLoop_append (ex : String → String → ExecOutcome) (clock : Nat → Nat) :
    ∀ (pre : List (String × String)) (s : ProjectRepoHashes) (k : Nat)
      (rest : List (String × String)),
      (deployLoop ex clock s pre k).exit_code = 0 →
      deployLoop ex clock s (pre ++ rest) k =
        { exit_code := (deployLoop ex clock (deployLoop ex clock s pre k).store
            rest (k + pre.length)).exit_code,
          store := (deployLoop ex clock (deployLoop ex clock s pre k).store
            rest (k + pre.length)).store,
          events := (deployLoop ex clock s pre k).events ++
            (deployLoop ex clock (deployLoop ex clock s pre k).store
              rest (k + pre.length)).events } := by
  intro pre
  induction pre with
  | nil =>
    intro s k rest _
    simp [deployLoop]
  | cons fq pre ih =>
    obtain ⟨file, sql⟩ := fq
    intro s k rest h
    by_cases hm : s.matches_saved_hash file sql
    · simp only [List.cons_append, deployLoop_cons_of_matches hm] at h ⊢
      rw [ih s (k + 1) rest h]
      have hidx : k + 1 + pre.length = k + ((file, sql) :: pre).length := by
        simp only [List.length_cons]
        omega
      rw [hidx]
    · simp only [Bool.not_eq_true] at hm
      cases hx : ex file sql with
      | failure code out err =>
        rw [deployLoop_cons_of_fail hm hx] at h
        cases h
      | success out err =>
        simp only [List.cons_append, deployLoop_cons_of_success hm hx] at h ⊢
        rw [ih _ (k + 1) rest h]
        have hidx : k + 1 + pre.length = k + ((file, sql) :: pre).length := by
          simp only [List.length_cons]
          omega
        rw [hidx]

/-! ### Deploy orchestrator claims -/

/-- Claim C3: when the content hash of a located file matches the stored
fingerprint, the orchestrator does not invoke the Executor for it and does
not touch or persist its fingerprint: the run on the remaining files
continues from the very same store, and the only event recorded for the
file is `skipped`. -/
theorem deploy_skip_file (ex : String → String → ExecOutcome) (clock : Nat → Nat)
    (store : ProjectRepoHashes) (file sql : String)
    (rest : List (String × String)) (k : Nat)
    (h : store.matches_saved_hash file sql = true) :
    deployLoop ex clock store ((file, sql) :: rest) k =
      { exit_code := (deployLoop ex clock store rest (k + 1)).exit_code,
        store := (deployLoop ex clock store rest (k + 1)).store,
        events := DeployEvent.skipped file ::
          (deployLoop ex clock store rest (k + 1)).events } :=
  deployLoop_cons_of_matches h

/-- Witness for C3: a second run over `a.sql` with unchanged content skips
it; the Executor is not called and the store is returned unchanged. -/
theorem deploy_skip_file_witness :
    deployLoop (fun _ _ => ExecOutcome.success "" "") (fun _ => 0) sampleStore1
        [("a.sql", "CREATE TABLE t;")] 0 =
      { exit_code := 0, store := sampleStore1,
        events := [DeployEvent.skipped "a.sql"] } := by
  have h := deploy_skip_file (fun _ _ => ExecOutcome.success "" "") (fun _ => 0)
    sampleStore1 "a.sql" "CREATE TABLE t;" [] 0 (by decide)
  simpa [deployLoop] using h

/-- Claim C2: if the Executor fails on a file that was reached after a
clean prefix, the run exits with the distinct non-zero status 3, no file
after the failing one is attempted (the trace ends at the failure), the
failing file's fingerprint is neither updated nor persisted (the final
store is exactly the store reached before it, and no `saved` event for it
exists), and the events of the prefix — including the persisted snapshots
of every earlier successful file — are retained unchanged. -/
theorem deploy_fail_fast (ex : String → String → ExecOutcome) (clock : Nat → Nat)
    (s : ProjectRepoHashes) (pre : List (String × String)) (file sql : String)
    (post : List (String × String)) (k : Nat) (code : Int) (out err : String)
    (h0 : (deployLoop ex clock s pre k).exit_code = 0)
    (h1 : (deployLoop ex clock s pre k).store.matches_saved_hash file sql = false)
    (h2 : ex file sql = ExecOutcome.failure code out err) :
    deployLoop ex clock s (pre ++ (file, sql) :: post) k =
      { exit_code := 3,
        store := (deployLoop ex clock s pre k).store,
        events := (deployLoop ex clock s pre k).events ++
          [DeployEvent.executed file, DeployEvent.failed file code] } := by
  rw [deployLoop_append ex clock pre s k ((file, sql) :: post) h0]
  rw [deployLoop_cons_of_fail h1 h2]

/-- Witness for C2: a fresh store and a run whose only file fails with exit
code 1 — the process result is exit status 3, an untouched store, and a
trace ending at the failure. -/
theorem deploy_fail_fast_witness :
    deployLoop (fun _ _ => ExecOutcome.failure 1 "" "boom") (fun _ => 0)
        sampleStore [("y.sql", "SELECT 2;")] 0 =
      { exit_code := 3, store := sampleStore,
        events := [DeployEvent.executed "y.sql",
                   DeployEvent.failed "y.sql" 1] } := by
  have h := deploy_fail_fast (fun _ _ => ExecOutcome.failure 1 "" "boom")
    (fun _ => 0) sampleStore [] "y.sql" "SELECT 2;" [] 0 1 "" "boom"
    rfl (by decide) rfl
  simpa [deployLoop] using h

/-- Claim C6: when the directory listing raises, `find_ddl_files` returns
the empty list, and the deploy run over that result performs no action and
finishes with exit status 0. -/
theorem locator_error_empty_run (path : String) (readFile : String → String)
    (ex : String → String → ExecOutcome) (clock : Nat → Nat)
    (s : ProjectRepoHashes) :
    find_ddl_files path none = [] ∧
    deploy readFile ex clock s (find_ddl_files path none) =
      { exit_code := 0, store := s, events := [] } :=
  ⟨rfl, rfl⟩
